import Mathlib

/-!
Verification development for the tag-resolution core of `git-tag-info-action`.

The TypeScript sources are shallowly embedded as executable Lean functions:

* `src/semver.ts` → `parseSemver`, `isSemver`, `compareSemver`, `sortTagsBySemver`
* `src/format-matcher.ts` → `isSimplePattern`, `isWildcardPattern`,
  `isRegexPattern`, `matchTagFormat`, `filterTagsByFormat` and the two prefix
  extractors
* `src/tag-resolver.ts` → `filterTagsWithFallback`, `resolveLatestTag`
  (the full-fetch decision procedure, lines 433–481)
* `dist/format-parser.js` → `parseTagFormat` (with a JSON parser modelling
  `JSON.parse` on the relevant value grammar)

JavaScript-specific primitives are embedded as follows: JS strings are Lean
`String`s, with comparison (`<` on strings, default `Array.sort`) modelled on
UTF-16 code units (`utf16Units`); `Array.prototype.sort`, which is stable per
ES2019 and therefore — for a consistent comparator — computes the unique
stable sorted permutation, is modelled by the stable insertion sort
`jsStableSort`; machine numbers appear
only as small integers and are modelled by `Nat`/`Int`; the opaque JS `RegExp`
engine used for user-supplied regex-classified format patterns is abstracted
as an oracle parameter `rtest : String → String → Bool` (mapping the built,
anchored regex source and a subject string to `regex.test(subject)`; a regex
whose compilation throws corresponds to an oracle that rejects everything,
matching the `try/catch` in the source).  No theorem below depends on the
oracle's behaviour except through that abstraction.
-/

namespace GitTagInfo

instance {ε α : Type} [DecidableEq ε] [DecidableEq α] :
    DecidableEq (Except ε α) := fun a b =>
  match a, b with
  | .ok x, .ok y =>
    if h : x = y then .isTrue (by rw [h])
    else .isFalse (fun hc => h (Except.ok.inj hc))
  | .error x, .error y =>
    if h : x = y then .isTrue (by rw [h])
    else .isFalse (fun hc => h (Except.error.inj hc))
  | .ok _, .error _ => .isFalse (fun hc => Except.noConfusion hc)
  | .error _, .ok _ => .isFalse (fun hc => Except.noConfusion hc)

/-- UTF-16 code units of a string, as used by JavaScript string comparison:
characters below 0x10000 are one unit, others split into a surrogate pair. -/
def utf16Units (s : String) : List Nat :=
  s.data.flatMap fun c =>
    let n := c.toNat
    if n < 0x10000 then [n]
    else [0xD800 + (n - 0x10000) / 0x400, 0xDC00 + (n - 0x10000) % 0x400]

/-- Lexicographic three-way comparison of lists of naturals, -1/0/1 valued. -/
def lexCompareNat : List Nat → List Nat → Int
  | [], [] => 0
  | [], _ :: _ => -1
  | _ :: _, [] => 1
  | a :: as, b :: bs =>
    if a < b then -1 else if b < a then 1 else lexCompareNat as bs

/-- JavaScript relational comparison of two strings (`a < b` etc.), which
compares UTF-16 code-unit sequences lexicographically; -1/0/1 valued. -/
def jsStrCompare (a b : String) : Int :=
  lexCompareNat (utf16Units a) (utf16Units b)

/-- Characters removed by `String.prototype.trim` that occur in this
code base's inputs (ASCII whitespace). -/
def jsIsWhitespace (c : Char) : Bool :=
  c = ' ' || c = '\t' || c = '\n' || c = '\r' || c = '\x0b' || c = '\x0c'

/-- Model of `String.prototype.trim`: strip leading and trailing whitespace. -/
def jsTrim (s : String) : String :=
  String.mk (((s.data.dropWhile jsIsWhitespace).reverse.dropWhile
    jsIsWhitespace).reverse)

/-- Model of `String.prototype.split(sep)` for a single-character separator:
split at every occurrence, keeping empty segments. -/
def jsSplitChar (sep : Char) (cs : List Char) : List String :=
  match cs with
  | [] => [""]
  | c :: rest =>
    match jsSplitChar sep rest with
    | [] => if c = sep then ["", ""] else [String.mk [c]]
    | s :: ss =>
      if c = sep then "" :: s :: ss else String.mk (c :: s.data) :: ss

/-- Insert `a` into `l` before the first element `b` with `le a b`.  Together
with `jsStableSort` this is a stable sort: for a consistent comparator it
computes the same list as the (stable, per ES2019) `Array.prototype.sort`. -/
def jsInsert (le : α → α → Bool) (a : α) : List α → List α
  | [] => [a]
  | b :: bs => if le a b then a :: b :: bs else b :: jsInsert le a bs

/-- Stable sort modelling `Array.prototype.sort` with comparator `cmp`, where
`le a b` stands for `cmp(a, b) <= 0`. -/
def jsStableSort (le : α → α → Bool) : List α → List α
  | [] => []
  | a :: rest => jsInsert le a (jsStableSort le rest)

/-- True when the character list begins with the given character. -/
def headIs (c : Char) : List Char → Bool
  | [] => false
  | d :: _ => d = c

/-- True when the character list ends with the given character. -/
def lastIs (c : Char) (cs : List Char) : Bool :=
  headIs c cs.reverse

/-! ## Semver (`src/semver.ts`) -/

/-- Parsed semantic-version structure (`SemverParts` in `src/semver.ts`).
The regex groups for prerelease and build are non-empty when present. -/
structure SemverParts where
  major : Nat
  minor : Nat
  patch : Nat
  prerelease : Option String
  build : Option String
  deriving Repr, DecidableEq

/-- Character class `[0-9A-Za-z.-]` of the prerelease and build groups. -/
def semverIdentChar (c : Char) : Bool :=
  c.isAlphanum || c = '.' || c = '-'

/-- Decimal value of a digit run (JS `parseInt(_, 10)` on a digit string). -/
def digitsToNat (ds : List Char) : Nat :=
  ds.foldl (fun acc c => acc * 10 + (c.toNat - '0'.toNat)) 0

/-- Strip one optional leading `v`/`V` (JS `tagName.replace(/^v/i, '')`). -/
def stripLeadingV : List Char → List Char
  | 'v' :: cs => cs
  | 'V' :: cs => cs
  | cs => cs

/-- Parse semantic version from a tag name (`parseSemver` in `src/semver.ts`):
strip one optional leading `v`/`V`, then match
`^(\d+)\.(\d+)\.(\d+)(?:-([0-9A-Za-z.-]+))?(?:\+([0-9A-Za-z.-]+))?$`. -/
def parseSemver (tagName : String) : Option SemverParts :=
  let cs := stripLeadingV tagName.data
  let ds1 := cs.takeWhile Char.isDigit
  let r1 := cs.dropWhile Char.isDigit
  if ds1 = [] then none else
  match r1 with
  | '.' :: r2 =>
    let ds2 := r2.takeWhile Char.isDigit
    let r3 := r2.dropWhile Char.isDigit
    if ds2 = [] then none else
    match r3 with
    | '.' :: r4 =>
      let ds3 := r4.takeWhile Char.isDigit
      let r5 := r4.dropWhile Char.isDigit
      if ds3 = [] then none else
      let mk : Option String → Option String → Option SemverParts :=
        fun pre build =>
          some ⟨digitsToNat ds1, digitsToNat ds2, digitsToNat ds3, pre, build⟩
      match r5 with
      | [] => mk none none
      | '-' :: r6 =>
        let pre := r6.takeWhile semverIdentChar
        let r7 := r6.dropWhile semverIdentChar
        if pre = [] then none else
        match r7 with
        | [] => mk (some (String.mk pre)) none
        | '+' :: r8 =>
          let bld := r8.takeWhile semverIdentChar
          let r9 := r8.dropWhile semverIdentChar
          if bld = [] || r9 ≠ [] then none
          else mk (some (String.mk pre)) (some (String.mk bld))
        | _ => none
      | '+' :: r6 =>
        let bld := r6.takeWhile semverIdentChar
        let r7 := r6.dropWhile semverIdentChar
        if bld = [] || r7 ≠ [] then none
        else mk none (some (String.mk bld))
      | _ => none
    | _ => none
  | _ => none

/-- Check if a tag name follows semantic versioning (`isSemver`). -/
def isSemver (tagName : String) : Bool :=
  parseSemver tagName ≠ none

/-- Compare two semantic-version tags (`compareSemver` in `src/semver.ts`).
Returns -1/0/1; 0 when either side fails to parse.  The prerelease tie-break
uses JS string comparison (`jsStrCompare`); build metadata is ignored. -/
def compareSemver (tag1 tag2 : String) : Int :=
  match parseSemver tag1, parseSemver tag2 with
  | some s1, some s2 =>
    if s1.major ≠ s2.major then (if s1.major > s2.major then 1 else -1)
    else if s1.minor ≠ s2.minor then (if s1.minor > s2.minor then 1 else -1)
    else if s1.patch ≠ s2.patch then (if s1.patch > s2.patch then 1 else -1)
    else
      match s1.prerelease, s2.prerelease with
      | some p1, some p2 => jsStrCompare p1 p2
      | some _, none => -1
      | none, some _ => 1
      | none, none => 0
  | _, _ => 0

/-- Sort tags by semantic version, highest first (`sortTagsBySemver`):
a stable sort under the comparator `(a, b) => compareSemver(b, a)`. -/
def sortTagsBySemver (tags : List String) : List String :=
  jsStableSort (fun a b => compareSemver b a ≤ 0) tags

/-! ## Format matcher (`src/format-matcher.ts`)

The regexes produced by `convertSimplePatternToRegex` and
`convertWildcardPatternToRegex` use only four constructs: `\d+`, an
unescaped `.` (any single character — `convertSimplePatternToRegex` does not
escape the dots of the pattern), `[^.]*`, and literal characters (the
optional leading `v`/`V` of the pattern and the escaped dots of a wildcard
pattern).  They are embedded as token lists matched with full backtracking
(`matchToks`), which coincides with the JS regex engine's behaviour on this
fragment. -/

/-- One token of a generated format regex. -/
inductive FTok where
  /-- `\d+` — one or more decimal digits (from a `X` placeholder). -/
  | digits : FTok
  /-- an unescaped `.` — any single character. -/
  | anyc : FTok
  /-- `[^.]*` — any run of non-dot characters (from a `*` placeholder). -/
  | star : FTok
  /-- a literal character (leading `v`/`V`, or an escaped dot). -/
  | lit : Char → FTok
  deriving Repr, DecidableEq

/-- Fuel-driven matcher of a token list against a character list, with full
backtracking.  `.digits` consumes one digit and then either hands over to the
rest of the tokens or consumes further digits (`\d+`); `.star` either hands
over immediately or consumes one non-dot character (`[^.]*`).  Every
recursive call shrinks `2 * (ts.length + cs.length)` by at least one, so the
fuel supplied by `matchToks` below can never be exhausted. -/
def matchToksF : Nat → List FTok → List Char → Bool
  | 0, _, _ => false
  | _ + 1, [], [] => true
  | _ + 1, [], _ :: _ => false
  | fuel + 1, .lit a :: ts, cs =>
    match cs with
    | c :: cs' => a = c && matchToksF fuel ts cs'
    | [] => false
  | fuel + 1, .anyc :: ts, cs =>
    match cs with
    | _ :: cs' => matchToksF fuel ts cs'
    | [] => false
  | fuel + 1, .digits :: ts, cs =>
    match cs with
    | c :: cs' =>
      c.isDigit && (matchToksF fuel ts cs' || matchToksF fuel (.digits :: ts) cs')
    | [] => false
  | fuel + 1, .star :: ts, cs =>
    matchToksF fuel ts cs ||
      match cs with
      | c :: cs' => c ≠ '.' && matchToksF fuel (.star :: ts) cs'
      | [] => false

/-- Match a token list against a character list; models
`new RegExp('^' + tokens + '$').test(s)` on the regex fragment generated by
the pattern converters. -/
def matchToks (ts : List FTok) (cs : List Char) : Bool :=
  matchToksF (2 * (ts.length + cs.length) + 2) ts cs

/-- Is the placeholder character `X` (the `/X/gi` replacement target)? -/
def isXChar (c : Char) : Bool :=
  c = 'X' || c = 'x'

/-- Check if a format string is a simple pattern, i.e. matches `/^v?X(\.X)+$/i`
(`isSimplePattern` in `src/format-matcher.ts`): body after the optional
`v`/`V` is `X` followed by one or more `.X` groups. -/
def simpleSegs : List Char → Bool
  | ['.', x] => isXChar x
  | '.' :: x :: rest => isXChar x && simpleSegs rest
  | _ => false

/-- Body of `isSimplePattern` after the optional leading `v`/`V`. -/
def simpleCore : List Char → Bool
  | x :: rest => isXChar x && simpleSegs rest
  | [] => false

/-- Embedding of `isSimplePattern` from `src/format-matcher.ts`: `/^v?X(\.X)+$/i`. -/
def isSimplePattern (format : String) : Bool :=
  match format.data with
  | 'v' :: rest => simpleCore rest
  | 'V' :: rest => simpleCore rest
  | cs => simpleCore cs

/-- Zero or more `.\*` groups, exactly covering the rest of the pattern. -/
def wildSegs : List Char → Bool
  | [] => true
  | '.' :: '*' :: rest => wildSegs rest
  | _ => false

/-- Body of `isWildcardPattern` after the optional leading `v`/`V`. -/
def wildCore : List Char → Bool
  | '*' :: rest => wildSegs rest
  | _ => false

/-- Embedding of `isWildcardPattern` from `src/format-matcher.ts`: `/^v?\*(\.\*)*$/i`. -/
def isWildcardPattern (format : String) : Bool :=
  match format.data with
  | 'v' :: rest => wildCore rest
  | 'V' :: rest => wildCore rest
  | cs => wildCore cs

/-- Embedding of `isRegexPattern` from `src/format-matcher.ts`: starts with `^` or `/`, or
contains one of the regex special characters `( ) [ ] { } + ? | \`
(`*` and `.` excluded, as they are reserved for wildcard/simple syntax). -/
def isRegexPattern (format : String) : Bool :=
  headIs '^' format.data || headIs '/' format.data ||
    format.data.any fun c =>
      c = '(' || c = ')' || c = '[' || c = ']' || c = '\x7b' || c = '\x7d' ||
        c = '+' || c = '?' || c = '|' || c = '\\'

/-- Token list of the regex built by `convertSimplePatternToRegex`: each
`X`/`x` becomes `\d+`; every other character (under `isSimplePattern` only
dots and a leading `v`/`V`) is copied verbatim into the regex source, so a
dot is the *unescaped* regex `.` matching any character. -/
def simpleToks (format : String) : List FTok :=
  format.data.map fun c =>
    if isXChar c then .digits else if c = '.' then .anyc else .lit c

/-- Token list of the regex built by `convertWildcardPatternToRegex`: each
`*` becomes `[^.]*`, each dot is escaped to a literal dot, every other
character (only a leading `v`/`V`) is copied verbatim. -/
def wildcardToks (format : String) : List FTok :=
  format.data.map fun c =>
    if c = '*' then .star else .lit c

/-- Greedy scan of `digits+(.digits+)*` from the start of a character list
whose head is a digit: consume digits, and continue past a dot only when a
digit follows (helper for `extractNumericPrefix`). -/
def numRun : List Char → List Char
  | [] => []
  | c :: cs =>
    if c.isDigit then c :: numRun cs
    else if c = '.' then
      match cs with
      | d :: _ => if d.isDigit then '.' :: numRun cs else []
      | [] => []
    else []

/-- Leading `digits+(.digits+)*` run; empty when the list does not start with
a digit. -/
def numBody : List Char → List Char
  | c :: cs => if c.isDigit then numRun (c :: cs) else []
  | [] => []

/-- Embedding of `extractNumericPrefix` from `src/format-matcher.ts`: the greedy (hence
longest) leading run matching `/^(v?\d+(?:\.\d+)*)/`; empty when there is no
match at the start of the string.  Only a lowercase `v` is accepted, as in
the source regex (no `i` flag). -/
def extractNumericPrefix (tagName : String) : String :=
  match tagName.data with
  | 'v' :: rest =>
    if numBody rest = [] then "" else String.mk ('v' :: numBody rest)
  | cs => String.mk (numBody cs)

/-- Greedy scan of `alnum+(.alnum+)*` (helper for `extractWildcardPrefix`). -/
def alnumRun : List Char → List Char
  | [] => []
  | c :: cs =>
    if c.isAlphanum then c :: alnumRun cs
    else if c = '.' then
      match cs with
      | d :: _ => if d.isAlphanum then '.' :: alnumRun cs else []
      | [] => []
    else []

/-- Leading `alnum+(.alnum+)*` run; empty when the list does not start with
an alphanumeric character. -/
def alnumBody : List Char → List Char
  | c :: cs => if c.isAlphanum then alnumRun (c :: cs) else []
  | [] => []

/-- Embedding of `extractWildcardPrefix` from `src/format-matcher.ts`: the greedy leading
run matching `/^(v?[a-zA-Z0-9]+(?:\.[a-zA-Z0-9]+)+)/` — at least one
dot-separated extra segment is required, else the result is empty.  Since
`v` is itself alphanumeric, the matched run is the longest leading
`alnum+(.alnum+)+` run, which must contain a dot. -/
def extractWildcardPrefix (tagName : String) : String :=
  let body := alnumBody tagName.data
  if body.contains '.' then String.mk body else ""

/-- Model of `format.replace(/^\/|\/$/g, '')`: remove one leading and one
trailing slash (the two match sites of the global regex). -/
def stripSlashes (format : String) : String :=
  let cs := format.data
  let cs1 := match cs with
    | '/' :: rest => rest
    | _ => cs
  let cs2 := if lastIs '/' cs1 then cs1.dropLast else cs1
  String.mk cs2

/-- Auto-anchoring of a regex-classified pattern in `matchTagFormat`:
prepend `^` when missing, then append `$` when missing. -/
def anchorRegex (regexStr : String) : String :=
  let s1 := if headIs '^' regexStr.data then regexStr
    else String.mk ('^' :: regexStr.data)
  if lastIs '$' s1.data then s1 else String.mk (s1.data ++ ['$'])

/-- Embedding of `matchTagFormat` from `src/format-matcher.ts`.  `rtest` is the abstracted
JS `RegExp` engine used only in the regex-classified branch: `rtest r s`
stands for `new RegExp(r).test(s)`, with a pattern whose compilation throws
corresponding to an oracle that is `false` everywhere (the `try/catch`).
Classification order: simple, then wildcard, then regex, else literal.
Wildcard patterns try the wildcard-prefix match first and then the full
match; simple and regex patterns try the full match first and then the
numeric-prefix match; literal patterns use exact string equality only. -/
def matchTagFormat (rtest : String → String → Bool)
    (tagName format : String) : Bool :=
  if format = "" || tagName = "" then false
  else if isSimplePattern format then
    let toks := simpleToks format
    if matchToks toks tagName.data then true
    else
      let p := extractNumericPrefix tagName
      p ≠ "" && matchToks toks p.data
  else if isWildcardPattern format then
    let toks := wildcardToks format
    let p := extractWildcardPrefix tagName
    if p ≠ "" && matchToks toks p.data then true
    else matchToks toks tagName.data
  else if isRegexPattern format then
    let regexStr := anchorRegex (stripSlashes format)
    if rtest regexStr tagName then true
    else
      let p := extractNumericPrefix tagName
      p ≠ "" && rtest regexStr p
  else tagName = format

/-- Embedding of `filterTagsByFormat` from `src/format-matcher.ts`: an empty format passes
every tag through; otherwise keep the tags accepted by `matchTagFormat`,
preserving order. -/
def filterTagsByFormat (rtest : String → String → Bool)
    (tagNames : List String) (format : String) : List String :=
  if format = "" then tagNames
  else tagNames.filter fun tagName => matchTagFormat rtest tagName format

/-- Placeholder regex engine for concrete evaluations that never reach the
regex-classified branch. -/
def rtestNone : String → String → Bool := fun _ _ => false

/-! ## Tag resolver (`src/tag-resolver.ts`)

The resolver proper is `async` and fetches items from a platform client; the
embedded `resolveLatestTag` below is its decision procedure on an
already-fetched item list (the full-fetch path, `src/tag-resolver.ts` lines
433–481; the GitHub names-only fast path runs the same filtering and semver
selection on names and otherwise falls through to this path). -/

/-- A fetched item: pair of name and date string, with the empty string as
the "no date" sentinel (`{ name: string; date: string }`). -/
structure TagItem where
  name : String
  date : String
  deriving Repr, DecidableEq, Inhabited

/-- Leap year per the proleptic Gregorian calendar used by ECMAScript. -/
def isLeapYear (y : Int) : Bool :=
  (Int.emod y 4 = 0 && Int.emod y 100 ≠ 0) || Int.emod y 400 = 0

/-- Days in a month (1-based) of a given year. -/
def daysInMonth (y : Int) (m : Nat) : Nat :=
  match m with
  | 2 => if isLeapYear y then 29 else 28
  | 4 | 6 | 9 | 11 => 30
  | _ => 31

/-- Days from 1970-01-01 to the given civil date (proleptic Gregorian). -/
def daysFromCivil (y : Int) (m d : Int) : Int :=
  let y := if m ≤ 2 then y - 1 else y
  let era := Int.fdiv y 400
  let yoe := y - era * 400
  let mp := Int.emod (m + 9) 12
  let doy := Int.fdiv (153 * mp + 2) 5 + d - 1
  let doe := yoe * 365 + Int.fdiv yoe 4 - Int.fdiv yoe 100 + doy
  era * 146097 + doe - 719468

/-- Model of `new Date(s).getTime()` for the date strings this code base
feeds it: an ECMAScript date-only form `YYYY-MM-DD` is interpreted as UTC
midnight and yields its epoch milliseconds; every other string is modelled
as `none`, standing for `NaN` (an out-of-range or non-ISO string). -/
def jsDateGetTime (s : String) : Option Int :=
  match s.data with
  | [y1, y2, y3, y4, '-', m1, m2, '-', d1, d2] =>
    if (y1.isDigit && y2.isDigit && y3.isDigit && y4.isDigit &&
        m1.isDigit && m2.isDigit && d1.isDigit && d2.isDigit) then
      let y : Int := Int.ofNat (digitsToNat [y1, y2, y3, y4])
      let m := digitsToNat [m1, m2]
      let d := digitsToNat [d1, d2]
      if 1 ≤ m && m ≤ 12 && 1 ≤ d && d ≤ daysInMonth y m then
        some (daysFromCivil y (Int.ofNat m) (Int.ofNat d) * 86400000)
      else none
    else none
  | _ => none

/-- Comparator ordering of the date-based fallback sort
(`sort((a, b) => dateB - dateA)`): `a` may precede `b` when the comparator is
non-positive, i.e. `b`'s timestamp is at most `a`'s; a `NaN` timestamp makes
the comparator `NaN`, which `Array.sort` treats like `0` (a tie). -/
def dateDescLe (a b : TagItem) : Bool :=
  match jsDateGetTime a.date, jsDateGetTime b.date with
  | some ta, some tb => tb ≤ ta
  | _, _ => true

/-- The date-based fallback sort: stable, most recent first. -/
def jsSortByDateDesc (items : List TagItem) : List TagItem :=
  jsStableSort dateDescLe items

/-- Default `Array.prototype.sort()` on strings: ascending by UTF-16
code-unit comparison, stable. -/
def jsSortStrings (names : List String) : List String :=
  jsStableSort (fun a b => jsStrCompare a b ≤ 0) names

/-- The error message thrown by `filterTagsWithFallback` when every pattern
produced an empty set: it quotes every attempted pattern, in order. -/
def noPatternMatchMsg (attempted : List String) : String :=
  "No tags found matching any format pattern: [" ++
    String.intercalate ", " (attempted.map fun p => "\"" ++ p ++ "\"") ++
    "]. Tried " ++ toString attempted.length ++ " pattern(s) in fallback order."

/-- Loop of `filterTagsWithFallback` (`src/tag-resolver.ts` lines 325–360):
try the patterns in order, return the first non-empty filtered set, and
accumulate failed patterns for the error message. -/
def filterTagsWithFallbackGo (rtest : String → String → Bool)
    (tagNames : List String) :
    List String → List String → Except String (List String)
  | [], attempted => .error (noPatternMatchMsg attempted)
  | p :: ps, attempted =>
    let filtered := filterTagsByFormat rtest tagNames p
    if filtered.isEmpty then
      filterTagsWithFallbackGo rtest tagNames ps (attempted ++ [p])
    else .ok filtered

/-- Embedding of `filterTagsWithFallback` from `src/tag-resolver.ts`: first pattern whose
filtered result is non-empty wins; if all patterns yield empty sets, fail
with a message naming every attempted pattern in order. -/
def filterTagsWithFallback (rtest : String → String → Bool)
    (tagNames patterns : List String) : Except String (List String) :=
  filterTagsWithFallbackGo rtest tagNames patterns []

/-- Format-filtering stage of `resolveLatestTag` (lines 439–447): with no
patterns the working set is unchanged; otherwise the fallback filter runs on
the names and the items are restricted to the surviving names. -/
def filterItemsStage (rtest : String → String → Bool) (allItems : List TagItem)
    (formatPatterns : Option (List String)) : Except String (List TagItem) :=
  match formatPatterns with
  | none => .ok allItems
  | some patterns =>
    match filterTagsWithFallback rtest (allItems.map TagItem.name) patterns with
    | .error e => .error e
    | .ok filteredItemNames =>
      .ok (allItems.filter fun item => filteredItemNames.contains item.name)

/-- Selection stage of `resolveLatestTag` (lines 449–480) on the filtered
working set: semver candidates first (sorted descending, first element);
otherwise entries with a non-empty date sorted by timestamp descending;
otherwise the alphabetically last name. -/
def resolveFromFiltered (filteredItems : List TagItem) : Except String String :=
  let semverItems := filteredItems.filter fun item => isSemver item.name
  if ¬ semverItems.isEmpty then
    .ok ((sortTagsBySemver (semverItems.map TagItem.name)).headD "")
  else
    let itemsWithDates := filteredItems.filter fun item => item.date ≠ ""
    if ¬ itemsWithDates.isEmpty then
      .ok ((jsSortByDateDesc itemsWithDates).headD default).name
    else
      .ok ((jsSortStrings (filteredItems.map TagItem.name)).getLastD "")

/-- Embedding of `resolveLatestTag` from `src/tag-resolver.ts` (decision procedure of the
full-fetch path, lines 433–481, for `itemType = 'tags'`): fail on an empty
item list, apply format filtering with fallback, then select by semver,
date, or alphabetical order. -/
def resolveLatestTag (rtest : String → String → Bool) (allItems : List TagItem)
    (formatPatterns : Option (List String)) : Except String String :=
  if allItems.isEmpty then .error "No tags found in repository"
  else
    match filterItemsStage rtest allItems formatPatterns with
    | .error e => .error e
    | .ok filteredItems => resolveFromFiltered filteredItems

/-! ## Format parser (`dist/format-parser.js`)

`parseTagFormat` needs `JSON.parse`, embedded below as a recursive-descent
parser of the full JSON value grammar (ECMA-404): values, arrays, objects,
strings with escapes, numbers, `true`/`false`/`null`, and insignificant
whitespace.  Numbers are kept as their source lexemes; the `String(...)`
coercion applied by `parseTagFormat` to non-string elements is modelled by
`jsToString`, which is faithful for string, boolean, `null`, array and
object values (for numbers it returns the lexeme, which models JS number
formatting only when the literal is already in canonical form — no theorem
below depends on a number element). -/

/-- A parsed JSON value. -/
inductive JsonValue where
  | null : JsonValue
  | bool : Bool → JsonValue
  | num : String → JsonValue
  | str : String → JsonValue
  | arr : List JsonValue → JsonValue
  | obj : List (String × JsonValue) → JsonValue

/-- Insignificant JSON whitespace (ECMA-404: space, tab, newline, return). -/
def skipJsonWs (cs : List Char) : List Char :=
  cs.dropWhile fun c => c = ' ' || c = '\t' || c = '\n' || c = '\r'

/-- Numeric value of one hexadecimal digit of a `\u` escape. -/
def uEscDigit (c : Char) : Option Nat :=
  let n := c.toNat
  if 48 ≤ n && n ≤ 57 then some (n - 48)
  else if 97 ≤ n && n ≤ 102 then some (n - 87)
  else if 65 ≤ n && n ≤ 70 then some (n - 55)
  else none

/-- Read the four hex digits of a `\u` escape as one UTF-16 code unit. -/
def uEscUnit (cs : List Char) : Option (Nat × List Char) :=
  match cs with
  | h1 :: h2 :: h3 :: h4 :: rest =>
    match uEscDigit h1, uEscDigit h2, uEscDigit h3, uEscDigit h4 with
    | some a, some b, some c, some d =>
      some (4096 * a + 256 * b + 16 * c + d, rest)
    | _, _, _, _ => none
  | _ => none

/-- Translation table of the single-character JSON escapes. -/
def shortEscape (e : Char) : Option Char :=
  List.lookup e
    [('"', '"'), ('\\', '\\'), ('/', '/'), ('b', '\x08'), ('f', '\x0c'),
     ('n', '\n'), ('r', '\r'), ('t', '\t')]

/-- Decode what follows a backslash in a JSON string: a short escape or a
`\u` escape, yielding the decoded character and the unconsumed rest.
`\uXXXX` escapes decode UTF-16, combining a high and a low surrogate escape
into one code point; a lone surrogate — which JS would keep as an unpaired
UTF-16 unit, impossible in a Lean `Char` — is modelled as U+FFFD. -/
def decodeEscape (cs : List Char) : Option (Char × List Char) :=
  match cs with
  | 'u' :: more =>
    match uEscUnit more with
    | none => none
    | some (hi, afterHi) =>
      if hi < 0xD800 || 0xDFFF < hi then some (Char.ofNat hi, afterHi)
      else if 0xDC00 ≤ hi then some ('\uFFFD', afterHi)
      else
        match afterHi with
        | '\\' :: 'u' :: more2 =>
          match uEscUnit more2 with
          | some (lo, afterLo) =>
            if 0xDC00 ≤ lo && lo ≤ 0xDFFF then
              some (Char.ofNat ((hi - 0xD800) * 1024 + (lo - 0xDC00) + 0x10000),
                afterLo)
            else some ('\uFFFD', afterHi)
          | none => some ('\uFFFD', afterHi)
        | _ => some ('\uFFFD', afterHi)
  | e :: more =>
    match shortEscape e with
    | some c => some (c, more)
    | none => none
  | [] => none

/-- Parse a JSON string body after the opening quote, returning the content
and the rest after the closing quote.  An unescaped control character is a
syntax error. -/
def pStrBody : Nat → List Char → Option (String × List Char)
  | 0, _ => none
  | fuel + 1, cs =>
    match cs with
    | '"' :: rest => some ("", rest)
    | '\\' :: rest =>
      match decodeEscape rest with
      | some (c, rest2) =>
        match pStrBody fuel rest2 with
        | some (s, r) => some (String.mk (c :: s.data), r)
        | none => none
      | none => none
    | c :: rest =>
      if c.toNat < 0x20 then none
      else
        match pStrBody fuel rest with
        | some (s, r) => some (String.mk (c :: s.data), r)
        | none => none
    | [] => none

/-- Parse a JSON number lexeme: `-? (0 | [1-9][0-9]*) ('.' [0-9]+)?
([eE] [+-]? [0-9]+)?`. -/
def pNum (cs : List Char) : Option (String × List Char) :=
  let (sign, cs1) :=
    match cs with
    | '-' :: rest => (['-'], rest)
    | _ => (([] : List Char), cs)
  let intPart : Option (List Char × List Char) :=
    match cs1 with
    | '0' :: rest => some (['0'], rest)
    | c :: rest =>
      if c.isDigit then
        some (c :: rest.takeWhile Char.isDigit, rest.dropWhile Char.isDigit)
      else none
    | [] => none
  match intPart with
  | none => none
  | some (ip, cs2) =>
    let (fp, cs3) :=
      match cs2 with
      | '.' :: rest =>
        let ds := rest.takeWhile Char.isDigit
        if ds.isEmpty then (([] : List Char), cs2)
        else ('.' :: ds, rest.dropWhile Char.isDigit)
      | _ => (([] : List Char), cs2)
    if fp.isEmpty && (match cs2 with | '.' :: _ => true | _ => false) then none
    else
      let expPart : Option (List Char × List Char) :=
        match cs3 with
        | e :: rest =>
          if e = 'e' || e = 'E' then
            let (es, rest1) :=
              match rest with
              | '+' :: r => (['+'], r)
              | '-' :: r => (['-'], r)
              | _ => (([] : List Char), rest)
            let ds := rest1.takeWhile Char.isDigit
            if ds.isEmpty then none
            else some (e :: es ++ ds, rest1.dropWhile Char.isDigit)
          else some ([], cs3)
        | [] => some ([], cs3)
      match expPart with
      | none => none
      | some (ep, cs4) => some (String.mk (sign ++ ip ++ fp ++ ep), cs4)

mutual

/-- Parse one JSON value at the head of the input (leading whitespace already
skipped), returning the value and the unconsumed rest. -/
def pJson : Nat → List Char → Option (JsonValue × List Char)
  | 0, _ => none
  | fuel + 1, cs =>
    match cs with
    | 'n' :: 'u' :: 'l' :: 'l' :: rest => some (.null, rest)
    | 't' :: 'r' :: 'u' :: 'e' :: rest => some (.bool true, rest)
    | 'f' :: 'a' :: 'l' :: 's' :: 'e' :: rest => some (.bool false, rest)
    | '"' :: rest =>
      match pStrBody (rest.length + 1) rest with
      | some (s, r) => some (.str s, r)
      | none => none
    | '[' :: rest =>
      match skipJsonWs rest with
      | ']' :: r => some (.arr [], r)
      | rest1 =>
        match pArrItems fuel rest1 with
        | some (xs, r) => some (.arr xs, r)
        | none => none
    | '\x7b' :: rest =>
      match skipJsonWs rest with
      | '\x7d' :: r => some (.obj [], r)
      | rest1 =>
        match pObjItems fuel rest1 with
        | some (fs, r) => some (.obj fs, r)
        | none => none
    | c :: _ =>
      if c = '-' || c.isDigit then
        match pNum cs with
        | some (lex, r) => some (.num lex, r)
        | none => none
      else none
    | [] => none

/-- Parse the comma-separated values of a non-empty JSON array, consuming the
closing bracket. -/
def pArrItems : Nat → List Char → Option (List JsonValue × List Char)
  | 0, _ => none
  | fuel + 1, cs =>
    match pJson fuel cs with
    | none => none
    | some (v, r) =>
      match skipJsonWs r with
      | ',' :: r2 =>
        match pArrItems fuel (skipJsonWs r2) with
        | some (vs, r3) => some (v :: vs, r3)
        | none => none
      | ']' :: r2 => some ([v], r2)
      | _ => none

/-- Parse the members of a non-empty JSON object, consuming the closing
brace. -/
def pObjItems : Nat → List Char → Option (List (String × JsonValue) × List Char)
  | 0, _ => none
  | fuel + 1, cs =>
    match cs with
    | '"' :: rest =>
      match pStrBody (rest.length + 1) rest with
      | none => none
      | some (k, r) =>
        match skipJsonWs r with
        | ':' :: r2 =>
          match pJson fuel (skipJsonWs r2) with
          | none => none
          | some (v, r3) =>
            match skipJsonWs r3 with
            | ',' :: r4 =>
              match pObjItems fuel (skipJsonWs r4) with
              | some (fs, r5) => some ((k, v) :: fs, r5)
              | none => none
            | '\x7d' :: r4 => some ([(k, v)], r4)
            | _ => none
        | _ => none
    | _ => none

end

/-- Model of `JSON.parse`: parse one value surrounded by optional whitespace;
`none` models a thrown `SyntaxError`.  The fuel `2 * (length + 2)` dominates
the number of recursive parsing steps, each of which consumes input. -/
def jsonParse (s : String) : Option JsonValue :=
  match pJson (2 * (s.data.length + 2)) (skipJsonWs s.data) with
  | some (v, r) => if (skipJsonWs r).isEmpty then some v else none
  | none => none

mutual

/-- Model of the JS `String(...)` coercion on parsed JSON values (see the
section comment for the number caveat). -/
def jsToString : JsonValue → String
  | .null => "null"
  | .bool true => "true"
  | .bool false => "false"
  | .num lex => lex
  | .str s => s
  | .arr xs => jsArrJoin xs
  | .obj _ => "[object Object]"

/-- Model of `Array.prototype.toString`: elements stringified and joined with commas,
`null` elements becoming empty strings. -/
def jsArrJoin : List JsonValue → String
  | [] => ""
  | [x] =>
    match x with
    | .null => ""
    | v => jsToString v
  | x :: xs =>
    (match x with
      | .null => ""
      | v => jsToString v) ++ "," ++ jsArrJoin xs

end

/-- One element of the parsed JSON array, as `parseTagFormat` normalizes it:
`typeof item === 'string' ? item.trim() : String(item).trim()`. -/
def jsItemToPattern (v : JsonValue) : String :=
  match v with
  | .str s => jsTrim s
  | v => jsTrim (jsToString v)

/-- Embedding of `parseTagFormat` from `dist/format-parser.js`.  The input is
`Option String` (`none` = the `undefined` input); the result is `.ok none`
for "no filtering", `.ok (some patterns)` for a parsed pattern list, and
`.error msg` for a thrown `Error`.  A `SyntaxError` escaping `JSON.parse` is
wrapped; its engine-specific `error.message` interpolation is modelled by
the fixed prefix of the wrapped message. -/
def parseTagFormat (input : Option String) : Except String (Option (List String)) :=
  match input with
  | none => .ok none
  | some raw =>
    if jsTrim raw = "" then .ok none
    else
      let trimmed := jsTrim raw
      if headIs '[' trimmed.data && lastIs ']' trimmed.data then
        match jsonParse trimmed with
        | none => .error "Invalid JSON array format for tag_format"
        | some (.arr items) =>
          let patterns := (items.map jsItemToPattern).filter fun p => p ≠ ""
          if patterns.isEmpty then
            .error "JSON array must contain at least one non-empty pattern"
          else .ok (some patterns)
        | some _ => .error "JSON input must be an array"
      else if trimmed.data.contains ',' then
        let patterns :=
          ((jsSplitChar ',' trimmed.data).map jsTrim).filter fun p => p ≠ ""
        if patterns.isEmpty then
          .error "Comma-separated tag_format must contain at least one non-empty pattern"
        else .ok (some patterns)
      else .ok (some [trimmed])

/-! ## Auxiliary lemmas -/

theorem lexCompareNat_self (l : List Nat) : lexCompareNat l l = 0 := by
  induction l with
  | nil => rfl
  | cons a as ih => simp [lexCompareNat, ih]

theorem lexCompareNat_antisymm (a : List Nat) :
    ∀ b, lexCompareNat a b = -lexCompareNat b a := by
  induction a with
  | nil => intro b; cases b <;> rfl
  | cons x xs ih =>
    intro b
    cases b with
    | nil => rfl
    | cons y ys =>
      by_cases h1 : x < y
      · have h2 : ¬ y < x := by omega
        simp [lexCompareNat, h1, h2]
      · by_cases h2 : y < x
        · simp [lexCompareNat, h1, h2]
        · simp [lexCompareNat, h1, h2, ih ys]

theorem jsStrCompare_self (s : String) : jsStrCompare s s = 0 :=
  lexCompareNat_self _

theorem jsStrCompare_antisymm (a b : String) :
    jsStrCompare a b = -jsStrCompare b a :=
  lexCompareNat_antisymm _ _

theorem compareSemver_antisymm (a b : String) :
    compareSemver a b = -compareSemver b a := by
  unfold compareSemver
  cases hp : parseSemver a with
  | none => cases hq : parseSemver b <;> rfl
  | some p =>
    cases hq : parseSemver b with
    | none => rfl
    | some q =>
      rcases Nat.lt_trichotomy p.major q.major with h1 | h1 | h1
      · have a1 : p.major ≠ q.major := by omega
        have a2 : ¬ p.major > q.major := by omega
        have a3 : q.major ≠ p.major := by omega
        have a4 : q.major > p.major := by omega
        simp [a1, a2, a3, a4]
      · have a1 : ¬ p.major ≠ q.major := by omega
        have a2 : ¬ q.major ≠ p.major := by omega
        simp only [if_neg a1, if_neg a2]
        rcases Nat.lt_trichotomy p.minor q.minor with h2 | h2 | h2
        · have b1 : p.minor ≠ q.minor := by omega
          have b2 : ¬ p.minor > q.minor := by omega
          have b3 : q.minor ≠ p.minor := by omega
          have b4 : q.minor > p.minor := by omega
          simp [b1, b2, b3, b4]
        · have b1 : ¬ p.minor ≠ q.minor := by omega
          have b2 : ¬ q.minor ≠ p.minor := by omega
          simp only [if_neg b1, if_neg b2]
          rcases Nat.lt_trichotomy p.patch q.patch with h3 | h3 | h3
          · have c1 : p.patch ≠ q.patch := by omega
            have c2 : ¬ p.patch > q.patch := by omega
            have c3 : q.patch ≠ p.patch := by omega
            have c4 : q.patch > p.patch := by omega
            simp [c1, c2, c3, c4]
          · have c1 : ¬ p.patch ≠ q.patch := by omega
            have c2 : ¬ q.patch ≠ p.patch := by omega
            simp only [if_neg c1, if_neg c2]
            rcases p.prerelease with _ | p1 <;> rcases q.prerelease with _ | q1
            · rfl
            · rfl
            · rfl
            · exact jsStrCompare_antisymm p1 q1
          · have c1 : p.patch ≠ q.patch := by omega
            have c2 : p.patch > q.patch := by omega
            have c3 : q.patch ≠ p.patch := by omega
            have c4 : ¬ q.patch > p.patch := by omega
            simp [c1, c2, c3, c4]
        · have b1 : p.minor ≠ q.minor := by omega
          have b2 : p.minor > q.minor := by omega
          have b3 : q.minor ≠ p.minor := by omega
          have b4 : ¬ q.minor > p.minor := by omega
          simp [b1, b2, b3, b4]
      · have a1 : p.major ≠ q.major := by omega
        have a2 : p.major > q.major := by omega
        have a3 : q.major ≠ p.major := by omega
        have a4 : ¬ q.major > p.major := by omega
        simp [a1, a2, a3, a4]

theorem compareSemver_self (a : String) : compareSemver a a = 0 := by
  unfold compareSemver
  cases hp : parseSemver a with
  | none => rfl
  | some p =>
    simp only [ne_eq, not_true_eq_false, if_false, ite_self]
    cases p.prerelease <;> simp [jsStrCompare_self]

theorem isSemver_eq_true_iff (t : String) :
    isSemver t = true ↔ parseSemver t ≠ none := by
  simp [isSemver]

theorem isSemver_eq_false_iff (t : String) :
    isSemver t = false ↔ parseSemver t = none := by
  simp [isSemver]

theorem lexCompareNat_trans :
    ∀ a b c : List Nat, lexCompareNat a b ≤ 0 → lexCompareNat b c ≤ 0 →
      lexCompareNat a c ≤ 0 := by
  intro a
  induction a with
  | nil =>
    intro b c _ _
    cases c with
    | nil => exact le_refl _
    | cons z zs => exact (by decide : (-1 : Int) ≤ 0)
  | cons x xs ih =>
    intro b c h1 h2
    cases b with
    | nil =>
      change (1 : Int) ≤ 0 at h1
      exact absurd h1 (by decide)
    | cons y ys =>
      cases c with
      | nil =>
        change (1 : Int) ≤ 0 at h2
        exact absurd h2 (by decide)
      | cons z zs =>
        simp only [lexCompareNat] at h1 h2 ⊢
        by_cases e1 : x < y
        · by_cases e2 : y < z
          · rw [if_pos (show x < z by omega)]
            decide
          · by_cases e3 : z < y
            · rw [if_neg e2, if_pos e3] at h2
              exact absurd h2 (by decide)
            · rw [if_pos (show x < z by omega)]
              decide
        · by_cases e1' : y < x
          · rw [if_neg e1, if_pos e1'] at h1
            exact absurd h1 (by decide)
          · rw [if_neg e1, if_neg e1'] at h1
            by_cases e2 : y < z
            · rw [if_pos (show x < z by omega)]
              decide
            · by_cases e3 : z < y
              · rw [if_neg e2, if_pos e3] at h2
                exact absurd h2 (by decide)
              · rw [if_neg e2, if_neg e3] at h2
                rw [if_neg (show ¬ x < z by omega),
                  if_neg (show ¬ z < x by omega)]
                exact ih ys zs h1 h2

theorem jsStrCompare_trans (a b c : String)
    (h1 : jsStrCompare a b ≤ 0) (h2 : jsStrCompare b c ≤ 0) :
    jsStrCompare a c ≤ 0 :=
  lexCompareNat_trans _ _ _ h1 h2

theorem jsStrCompare_total (a b : String) :
    jsStrCompare a b ≤ 0 ∨ jsStrCompare b a ≤ 0 := by
  have h := jsStrCompare_antisymm a b
  omega

/-- Decompose one comparison level of `compareSemver`: a non-positive result
means the left component is smaller, or the components agree and the rest of
the chain is non-positive. -/
theorem stepChain_le {x y : Nat} {k : Int}
    (h : (if x ≠ y then (if x > y then (1 : Int) else -1) else k) ≤ 0) :
    x < y ∨ (x = y ∧ k ≤ 0) := by
  by_cases e : x = y
  · exact Or.inr ⟨e, by simpa [e] using h⟩
  · left
    by_cases g : x > y
    · rw [if_pos e, if_pos g] at h
      exact absurd h (by decide)
    · omega

theorem stepChain_of_lt {x y : Nat} (k : Int) (h : x < y) :
    (if x ≠ y then (if x > y then (1 : Int) else -1) else k) ≤ 0 := by
  rw [if_pos (show x ≠ y by omega), if_neg (show ¬ x > y by omega)]
  decide

theorem stepChain_of_eq {x y : Nat} {k : Int} (e : x = y) (hk : k ≤ 0) :
    (if x ≠ y then (if x > y then (1 : Int) else -1) else k) ≤ 0 := by
  rw [if_neg (show ¬ x ≠ y by omega)]
  exact hk

theorem compareSemver_trans (a b c : String)
    (ha : parseSemver a ≠ none) (hb : parseSemver b ≠ none)
    (hc : parseSemver c ≠ none)
    (h1 : compareSemver a b ≤ 0) (h2 : compareSemver b c ≤ 0) :
    compareSemver a c ≤ 0 := by
  obtain ⟨p, hp⟩ := Option.ne_none_iff_exists'.mp ha
  obtain ⟨q, hq⟩ := Option.ne_none_iff_exists'.mp hb
  obtain ⟨r, hr⟩ := Option.ne_none_iff_exists'.mp hc
  unfold compareSemver at h1 h2 ⊢
  rw [hp, hq] at h1
  rw [hq, hr] at h2
  rw [hp, hr]
  rcases stepChain_le h1 with hM1 | ⟨eM1, h1⟩
  · rcases stepChain_le h2 with hM2 | ⟨eM2, h2⟩
    · exact stepChain_of_lt _ (by omega)
    · exact stepChain_of_lt _ (by omega)
  · rcases stepChain_le h2 with hM2 | ⟨eM2, h2⟩
    · exact stepChain_of_lt _ (by omega)
    · refine stepChain_of_eq (by omega) ?_
      rcases stepChain_le h1 with hm1 | ⟨em1, h1⟩
      · rcases stepChain_le h2 with hm2 | ⟨em2, h2⟩
        · exact stepChain_of_lt _ (by omega)
        · exact stepChain_of_lt _ (by omega)
      · rcases stepChain_le h2 with hm2 | ⟨em2, h2⟩
        · exact stepChain_of_lt _ (by omega)
        · refine stepChain_of_eq (by omega) ?_
          rcases stepChain_le h1 with hp1 | ⟨ep1, h1⟩
          · rcases stepChain_le h2 with hp2 | ⟨ep2, h2⟩
            · exact stepChain_of_lt _ (by omega)
            · exact stepChain_of_lt _ (by omega)
          · rcases stepChain_le h2 with hp2 | ⟨ep2, h2⟩
            · exact stepChain_of_lt _ (by omega)
            · refine stepChain_of_eq (by omega) ?_
              revert h1 h2
              rcases p.prerelease with _ | s <;> rcases q.prerelease with _ | t <;>
                rcases r.prerelease with _ | u <;> intro h1 h2
              · decide
              · change (1 : Int) ≤ 0 at h2
                exact absurd h2 (by decide)
              · change (1 : Int) ≤ 0 at h1
                exact absurd h1 (by decide)
              · change (1 : Int) ≤ 0 at h1
                exact absurd h1 (by decide)
              · change (-1 : Int) ≤ 0
                decide
              · change (1 : Int) ≤ 0 at h2
                exact absurd h2 (by decide)
              · change (-1 : Int) ≤ 0
                decide
              · exact jsStrCompare_trans s t u h1 h2

theorem compareSemver_total (a b : String) :
    compareSemver a b ≤ 0 ∨ compareSemver b a ≤ 0 := by
  have h := compareSemver_antisymm a b
  omega

theorem jsInsert_perm (le : α → α → Bool) (a : α) (l : List α) :
    (jsInsert le a l).Perm (a :: l) := by
  induction l with
  | nil => exact List.Perm.refl _
  | cons b bs ih =>
    by_cases h : le a b = true
    · simp only [jsInsert, if_pos h]
      exact List.Perm.refl _
    · simp only [jsInsert, if_neg h]
      exact (ih.cons b).trans (List.Perm.swap a b bs)

theorem jsStableSort_perm (le : α → α → Bool) (l : List α) :
    (jsStableSort le l).Perm l := by
  induction l with
  | nil => exact List.Perm.refl _
  | cons a rest ih =>
    exact (jsInsert_perm le a (jsStableSort le rest)).trans (ih.cons a)

theorem mem_jsStableSort {le : α → α → Bool} {l : List α} {x : α} :
    x ∈ jsStableSort le l ↔ x ∈ l :=
  (jsStableSort_perm le l).mem_iff

theorem pairwise_jsInsert (le : α → α → Bool) (a : α) (l : List α)
    (hl : l.Pairwise fun x y => le x y = true)
    (htot : ∀ b ∈ l, le a b = true ∨ le b a = true)
    (htrans : ∀ b ∈ l, ∀ c ∈ l, le a b = true → le b c = true →
      le a c = true) :
    (jsInsert le a l).Pairwise fun x y => le x y = true := by
  induction l with
  | nil => simp [jsInsert]
  | cons b bs ih =>
    obtain ⟨hb, hbs⟩ := List.pairwise_cons.mp hl
    by_cases h : le a b = true
    · simp only [jsInsert, if_pos h]
      refine List.pairwise_cons.mpr ⟨?_, hl⟩
      intro c hc
      rcases List.mem_cons.mp hc with hcb | hcbs
      · exact hcb ▸ h
      · exact htrans b (List.mem_cons_self _ _) c (List.mem_cons_of_mem b hcbs) h
          (hb c hcbs)
    · simp only [jsInsert, if_neg h]
      refine List.pairwise_cons.mpr ⟨?_, ?_⟩
      · intro c hc
        rcases List.mem_cons.mp ((jsInsert_perm le a bs).mem_iff.mp hc) with hca | hcbs
        · rcases htot b (List.mem_cons_self _ _) with h' | h'
          · exact absurd h' h
          · exact hca ▸ h'
        · exact hb c hcbs
      · exact ih hbs
          (fun x hx => htot x (List.mem_cons_of_mem b hx))
          (fun x hx y hy => htrans x (List.mem_cons_of_mem b hx) y
            (List.mem_cons_of_mem b hy))

theorem pairwise_jsStableSort (le : α → α → Bool) (l : List α)
    (htot : ∀ x ∈ l, ∀ y ∈ l, le x y = true ∨ le y x = true)
    (htrans : ∀ x ∈ l, ∀ y ∈ l, ∀ z ∈ l, le x y = true → le y z = true →
      le x z = true) :
    (jsStableSort le l).Pairwise fun x y => le x y = true := by
  induction l with
  | nil => simp [jsStableSort]
  | cons a rest ih =>
    have hmem : ∀ x ∈ jsStableSort le rest, x ∈ a :: rest := fun x hx =>
      List.mem_cons_of_mem a (mem_jsStableSort.mp hx)
    refine pairwise_jsInsert le a (jsStableSort le rest) ?_ ?_ ?_
    · exact ih
        (fun x hx y hy => htot x (List.mem_cons_of_mem a hx) y
          (List.mem_cons_of_mem a hy))
        (fun x hx y hy z hz => htrans x (List.mem_cons_of_mem a hx) y
          (List.mem_cons_of_mem a hy) z (List.mem_cons_of_mem a hz))
    · exact fun b hb => htot a (List.mem_cons_self _ _) b (hmem b hb)
    · exact fun b hb c hc => htrans a (List.mem_cons_self _ _) b (hmem b hb) c
        (hmem c hc)

theorem getLastD_mem_of_ne_nil :
    ∀ (l : List α) (d : α), l ≠ [] → l.getLastD d ∈ l := by
  intro l
  induction l with
  | nil => intro d h; exact absurd rfl h
  | cons a t ih =>
    intro d _
    rw [List.getLastD_cons]
    cases t with
    | nil => simp
    | cons b t' => exact List.mem_cons_of_mem a (ih a (by simp))

theorem pairwise_getLastD {R : α → α → Prop} :
    ∀ (l : List α) (d : α), l.Pairwise R → ∀ x ∈ l,
      x = l.getLastD d ∨ R x (l.getLastD d) := by
  intro l
  induction l with
  | nil => intro d _ x hx; exact absurd hx (List.not_mem_nil x)
  | cons a t ih =>
    intro d h x hx
    obtain ⟨ha, ht⟩ := List.pairwise_cons.mp h
    rw [List.getLastD_cons]
    cases t with
    | nil =>
      rcases List.mem_cons.mp hx with hxa | hxe
      · exact Or.inl (by simp [hxa])
      · exact absurd hxe (List.not_mem_nil x)
    | cons b t' =>
      rcases List.mem_cons.mp hx with hxa | hxt
      · refine Or.inr ?_
        subst hxa
        exact ha _ (getLastD_mem_of_ne_nil (b :: t') x (by simp))
      · exact ih a ht x hxt

theorem filter_contains_names (l : List String) (q : String → Bool) :
    (l.filter fun n => (l.filter q).contains n) = l.filter q := by
  apply List.filter_congr
  intro n hn
  by_cases hq : q n = true
  · have : n ∈ l.filter q := List.mem_filter.mpr ⟨hn, hq⟩
    rw [hq]
    exact List.elem_iff.mpr this
  · have : n ∉ l.filter q := fun hmem => hq (List.mem_filter.mp hmem).2
    simp only [Bool.not_eq_true] at hq
    rw [hq]
    by_cases hc : (l.filter q).contains n = true
    · exact absurd (List.elem_iff.mp hc) this
    · simpa using hc

/-- The item list surviving the filtering stage carries exactly the names
selected by the format filter, in order. -/
theorem filtered_items_names (items : List TagItem) (q : String → Bool) :
    ((items.filter fun it =>
        (((items.map TagItem.name).filter q).contains it.name)).map
      TagItem.name) = (items.map TagItem.name).filter q := by
  have h := List.filter_map (p := fun n =>
    ((items.map TagItem.name).filter q).contains n) TagItem.name items
  calc ((items.filter fun it =>
          (((items.map TagItem.name).filter q).contains it.name)).map
        TagItem.name)
      = (items.map TagItem.name).filter
          (fun n => ((items.map TagItem.name).filter q).contains n) := h.symm
    _ = (items.map TagItem.name).filter q :=
        filter_contains_names (items.map TagItem.name) q

theorem resolveLatestTag_ok (rtest : String → String → Bool)
    (items F : List TagItem) (fmt : Option (List String))
    (hne : items ≠ []) (hstage : filterItemsStage rtest items fmt = .ok F) :
    resolveLatestTag rtest items fmt = resolveFromFiltered F := by
  unfold resolveLatestTag
  rw [if_neg (by simpa [List.isEmpty_iff] using hne), hstage]

theorem resolveFromFiltered_semver (F : List TagItem)
    (h : (F.filter fun it => isSemver it.name) ≠ []) :
    resolveFromFiltered F =
      .ok ((sortTagsBySemver
        ((F.filter fun it => isSemver it.name).map TagItem.name)).headD "") := by
  unfold resolveFromFiltered
  rw [if_pos (by simpa [List.isEmpty_iff] using h)]

theorem resolveFromFiltered_date (F : List TagItem)
    (hsem : (F.filter fun it => isSemver it.name) = [])
    (hdat : (F.filter fun it => it.date ≠ "") ≠ []) :
    resolveFromFiltered F =
      .ok (((jsSortByDateDesc
        (F.filter fun it => it.date ≠ "")).headD default).name) := by
  unfold resolveFromFiltered
  rw [if_neg (by simp [List.isEmpty_iff, hsem]),
    if_pos (by simpa [List.isEmpty_iff] using hdat)]

theorem resolveFromFiltered_alpha (F : List TagItem)
    (hsem : (F.filter fun it => isSemver it.name) = [])
    (hdat : (F.filter fun it => it.date ≠ "") = []) :
    resolveFromFiltered F =
      .ok ((jsSortStrings (F.map TagItem.name)).getLastD "") := by
  unfold resolveFromFiltered
  rw [if_neg (by simp [List.isEmpty_iff, hsem]),
    if_neg (by
      simp only [List.isEmpty_iff, not_not]
      exact hdat)]

/-- Replace every date in an item list, keeping the names: used to state that
a resolution path never consults the dates. -/
def withDates (d : String → String) (items : List TagItem) : List TagItem :=
  items.map fun it => ⟨it.name, d it.name⟩

theorem withDates_names (d : String → String) (items : List TagItem) :
    (withDates d items).map TagItem.name = items.map TagItem.name := by
  unfold withDates
  rw [List.map_map]
  rfl

theorem withDates_filter_name (d : String → String) (items : List TagItem)
    (q : String → Bool) :
    (withDates d items).filter (fun it => q it.name) =
      withDates d (items.filter fun it => q it.name) := by
  unfold withDates
  exact List.filter_map _ _

theorem withDates_ne_nil {d : String → String} {items : List TagItem}
    (h : items ≠ []) : withDates d items ≠ [] := by
  simpa [withDates, List.map_eq_nil_iff] using h

theorem filterItemsStage_withDates (rtest : String → String → Bool)
    (items : List TagItem) (fmt : Option (List String)) (d : String → String) :
    filterItemsStage rtest (withDates d items) fmt =
      (filterItemsStage rtest items fmt).map (withDates d) := by
  cases fmt with
  | none => rfl
  | some pats =>
    simp only [filterItemsStage, withDates_names]
    cases h : filterTagsWithFallback rtest (items.map TagItem.name) pats with
    | error e => rfl
    | ok fnames =>
      simp only [Except.map]
      congr 1
      exact withDates_filter_name d items fun n => fnames.contains n

theorem resolveFromFiltered_withDates_semver (F : List TagItem)
    (d : String → String) (h : (F.filter fun it => isSemver it.name) ≠ []) :
    resolveFromFiltered (withDates d F) = resolveFromFiltered F := by
  have hfilter : (withDates d F).filter (fun it => isSemver it.name) =
      withDates d (F.filter fun it => isSemver it.name) :=
    withDates_filter_name d F fun n => isSemver n
  have h' : (withDates d F).filter (fun it => isSemver it.name) ≠ [] := by
    rw [hfilter]
    exact withDates_ne_nil h
  rw [resolveFromFiltered_semver _ h', resolveFromFiltered_semver _ h,
    hfilter, withDates_names]

/-! ## Claims -/

/-- C1: whenever the (possibly format-filtered) working set contains at least
one valid semver name, `resolveLatestTag` returns the first element of
`sortTagsBySemver` applied to the semver subset — a name that is greatest
under the semver comparator among the semver subset — and the result never
consults the dates (replacing every date leaves it unchanged); in particular
names `["1.0.0", "2.0.0", "1.5.0"]` with no format resolve to `"2.0.0"`. -/
theorem claim_C1_semver_selection :
    (∀ (rtest : String → String → Bool) (allItems F : List TagItem)
        (formatPatterns : Option (List String)),
      allItems ≠ [] →
      filterItemsStage rtest allItems formatPatterns = .ok F →
      (F.filter fun it => isSemver it.name) ≠ [] →
      (resolveLatestTag rtest allItems formatPatterns =
        .ok ((sortTagsBySemver
          ((F.filter fun it => isSemver it.name).map TagItem.name)).headD "")) ∧
      (∃ w ∈ (F.filter fun it => isSemver it.name).map TagItem.name,
        resolveLatestTag rtest allItems formatPatterns = .ok w ∧
        ∀ x ∈ (F.filter fun it => isSemver it.name).map TagItem.name,
          compareSemver x w ≤ 0) ∧
      (∀ d : String → String,
        resolveLatestTag rtest (withDates d allItems) formatPatterns =
          resolveLatestTag rtest allItems formatPatterns)) ∧
    resolveLatestTag rtestNone
      [⟨"1.0.0", "d1"⟩, ⟨"2.0.0", "d2"⟩, ⟨"1.5.0", "d3"⟩] none =
      .ok "2.0.0" := by
  constructor
  · intro rtest allItems F formatPatterns hne hstage hF
    have hmain : resolveLatestTag rtest allItems formatPatterns =
        .ok ((sortTagsBySemver
          ((F.filter fun it => isSemver it.name).map TagItem.name)).headD "") := by
      rw [resolveLatestTag_ok rtest allItems F formatPatterns hne hstage,
        resolveFromFiltered_semver F hF]
    refine ⟨hmain, ?_, ?_⟩
    · -- the returned name is a member of the semver subset and maximal in it
      have hS : (F.filter fun it => isSemver it.name).map TagItem.name ≠ [] := by
        simpa [List.map_eq_nil_iff] using hF
      have hsemS : ∀ x ∈ (F.filter fun it => isSemver it.name).map TagItem.name,
          isSemver x = true := by
        intro x hx
        obtain ⟨it, hit, hname⟩ := List.mem_map.mp hx
        exact hname ▸ (List.mem_filter.mp hit).2
      have hpw : (sortTagsBySemver
          ((F.filter fun it => isSemver it.name).map TagItem.name)).Pairwise
          (fun a b => (decide (compareSemver b a ≤ 0)) = true) :=
        pairwise_jsStableSort _ _
          (fun x _ y _ => by
            simp only [decide_eq_true_eq]
            exact compareSemver_total y x)
          (fun x hx y hy z hz => by
            simp only [decide_eq_true_eq]
            intro hyx hzy
            exact compareSemver_trans z y x
              ((isSemver_eq_true_iff z).mp (hsemS z hz))
              ((isSemver_eq_true_iff y).mp (hsemS y hy))
              ((isSemver_eq_true_iff x).mp (hsemS x hx)) hzy hyx)
      have hperm : (sortTagsBySemver
          ((F.filter fun it => isSemver it.name).map TagItem.name)).Perm
          ((F.filter fun it => isSemver it.name).map TagItem.name) :=
        jsStableSort_perm _ _
      cases hsorted : sortTagsBySemver
          ((F.filter fun it => isSemver it.name).map TagItem.name) with
      | nil =>
        exfalso
        apply hS
        rw [hsorted] at hperm
        exact hperm.symm.eq_nil
      | cons w t =>
        rw [hsorted] at hperm hpw
        have hwmem : w ∈ (F.filter fun it => isSemver it.name).map TagItem.name :=
          hperm.mem_iff.mp (List.mem_cons_self _ _)
        refine ⟨w, hwmem, by simpa [hsorted] using hmain, ?_⟩
        intro x hx
        have hxmem : x ∈ w :: t := hperm.mem_iff.mpr hx
        rcases List.mem_cons.mp hxmem with hxw | hxt
        · rw [hxw, compareSemver_self]
        · have := (List.pairwise_cons.mp hpw).1 x hxt
          simpa using this
    · -- date invariance
      intro d
      have hne' : withDates d allItems ≠ [] := withDates_ne_nil hne
      have hstage' : filterItemsStage rtest (withDates d allItems)
          formatPatterns = .ok (withDates d F) := by
        rw [filterItemsStage_withDates, hstage]
        rfl
      rw [resolveLatestTag_ok rtest (withDates d allItems) (withDates d F)
          formatPatterns hne' hstage',
        resolveLatestTag_ok rtest allItems F formatPatterns hne hstage]
      exact resolveFromFiltered_withDates_semver F d hF
  · decide

/-- Witness for the general part of C1 at scenario 1. -/
theorem claim_C1_witness :
    resolveLatestTag rtestNone
      [⟨"1.0.0", ""⟩, ⟨"2.0.0", ""⟩, ⟨"1.5.0", ""⟩] none = .ok "2.0.0" := by
  have h := (claim_C1_semver_selection.1 rtestNone
    [⟨"1.0.0", ""⟩, ⟨"2.0.0", ""⟩, ⟨"1.5.0", ""⟩]
    [⟨"1.0.0", ""⟩, ⟨"2.0.0", ""⟩, ⟨"1.5.0", ""⟩] none
    (by decide) rfl (by decide)).1
  exact h.trans (by decide)

theorem filterTagsWithFallbackGo_ok (rtest : String → String → Bool)
    (tagNames : List String) :
    ∀ (ps1 : List String) (p : String) (ps2 acc : List String),
      (∀ q ∈ ps1, filterTagsByFormat rtest tagNames q = []) →
      filterTagsByFormat rtest tagNames p ≠ [] →
      filterTagsWithFallbackGo rtest tagNames (ps1 ++ p :: ps2) acc =
        .ok (filterTagsByFormat rtest tagNames p) := by
  intro ps1
  induction ps1 with
  | nil =>
    intro p ps2 acc _ hp
    simp only [List.nil_append, filterTagsWithFallbackGo]
    rw [if_neg (by simpa [List.isEmpty_iff] using hp)]
  | cons q qs ih =>
    intro p ps2 acc hq hp
    simp only [List.cons_append, filterTagsWithFallbackGo]
    rw [if_pos (List.isEmpty_iff.mpr (hq q (List.mem_cons_self _ _)))]
    exact ih p ps2 (acc ++ [q])
      (fun r hr => hq r (List.mem_cons_of_mem q hr)) hp

theorem filterTagsWithFallbackGo_error (rtest : String → String → Bool)
    (tagNames : List String) :
    ∀ (ps acc : List String),
      (∀ q ∈ ps, filterTagsByFormat rtest tagNames q = []) →
      filterTagsWithFallbackGo rtest tagNames ps acc =
        .error (noPatternMatchMsg (acc ++ ps)) := by
  intro ps
  induction ps with
  | nil => intro acc _; simp [filterTagsWithFallbackGo]
  | cons p ps' ih =>
    intro acc hall
    simp only [filterTagsWithFallbackGo]
    rw [if_pos (List.isEmpty_iff.mpr (hall p (List.mem_cons_self _ _)))]
    rw [ih (acc ++ [p]) (fun r hr => hall r (List.mem_cons_of_mem p hr))]
    simp

/-- C2: with a non-empty candidate list and a non-empty ordered pattern list,
the fallback filter evaluates the patterns left to right and returns the
filtered result of the first pattern whose filtered set is non-empty; if
every pattern yields an empty set, `resolveLatestTag` fails with the error
message that quotes every attempted pattern, in the order tried. -/
theorem claim_C2_fallback_patterns :
    ∀ (rtest : String → String → Bool) (allItems : List TagItem)
      (patterns : List String), allItems ≠ [] → patterns ≠ [] →
      (∀ (ps1 : List String) (p : String) (ps2 : List String),
        patterns = ps1 ++ p :: ps2 →
        (∀ q ∈ ps1,
          filterTagsByFormat rtest (allItems.map TagItem.name) q = []) →
        filterTagsByFormat rtest (allItems.map TagItem.name) p ≠ [] →
        filterTagsWithFallback rtest (allItems.map TagItem.name) patterns =
          .ok (filterTagsByFormat rtest (allItems.map TagItem.name) p)) ∧
      ((∀ q ∈ patterns,
          filterTagsByFormat rtest (allItems.map TagItem.name) q = []) →
        resolveLatestTag rtest allItems (some patterns) =
          .error (noPatternMatchMsg patterns)) := by
  intro rtest allItems patterns hne _
  constructor
  · intro ps1 p ps2 hsplit hps1 hp
    rw [hsplit]
    exact filterTagsWithFallbackGo_ok rtest (allItems.map TagItem.name)
      ps1 p ps2 [] hps1 hp
  · intro hall
    have herr : filterTagsWithFallback rtest (allItems.map TagItem.name)
        patterns = .error (noPatternMatchMsg patterns) := by
      have := filterTagsWithFallbackGo_error rtest
        (allItems.map TagItem.name) patterns [] hall
      simpa using this
    unfold resolveLatestTag
    rw [if_neg (by simpa [List.isEmpty_iff] using hne)]
    simp only [filterItemsStage, herr]

/-- Witness for C2 at concrete inputs: the fallback picks the second pattern
when the first matches nothing, and an all-miss pattern list produces the
enumerating error. -/
theorem claim_C2_witness :
    filterTagsWithFallback rtestNone ["alpha"] ["zzz", "*"] = .ok ["alpha"] ∧
    resolveLatestTag rtestNone [⟨"alpha", ""⟩] (some ["zzz", "9.9.9"]) =
      .error (noPatternMatchMsg ["zzz", "9.9.9"]) := by
  constructor
  · have h := (claim_C2_fallback_patterns rtestNone [⟨"alpha", ""⟩]
      ["zzz", "*"] (by decide) (by decide)).1 ["zzz"] "*" [] rfl
      (by decide) (by decide)
    exact h.trans (by decide)
  · exact (claim_C2_fallback_patterns rtestNone [⟨"alpha", ""⟩]
      ["zzz", "9.9.9"] (by decide) (by decide)).2 (by decide)

/-- C3: when the working set contains no valid semver name, the resolver
keeps only the entries with a non-empty date and — provided those dates
parse — returns the name of an entry whose parsed timestamp is greatest; in
particular the dated items of scenario 2 resolve to `"release-2"`. -/
theorem claim_C3_date_selection :
    (∀ (rtest : String → String → Bool) (allItems dated : List TagItem),
      allItems ≠ [] →
      (∀ it ∈ allItems, isSemver it.name = false) →
      dated = allItems.filter (fun it => it.date ≠ "") →
      dated ≠ [] →
      (∀ it ∈ dated, (jsDateGetTime it.date).isSome) →
      ∃ w ∈ dated, resolveLatestTag rtest allItems none = .ok w.name ∧
        ∀ x ∈ dated, ∀ tw tx : Int, jsDateGetTime w.date = some tw →
          jsDateGetTime x.date = some tx → tx ≤ tw) ∧
    resolveLatestTag rtestNone
      [⟨"release-1", "2024-01-01"⟩, ⟨"release-2", "2024-01-03"⟩,
       ⟨"release-3", "2024-01-02"⟩] none = .ok "release-2" := by
  constructor
  · intro rtest allItems dated hne hnosem hdated hdne hparse
    have hsem : (allItems.filter fun it => isSemver it.name) = [] :=
      List.filter_eq_nil_iff.mpr fun it hit => by simp [hnosem it hit]
    have hmain : resolveLatestTag rtest allItems none =
        .ok (((jsSortByDateDesc
          (allItems.filter fun it => it.date ≠ "")).headD default).name) := by
      rw [resolveLatestTag_ok rtest allItems allItems none hne rfl,
        resolveFromFiltered_date allItems hsem (hdated ▸ hdne)]
    have hpw : (jsSortByDateDesc dated).Pairwise
        (fun a b => dateDescLe a b = true) :=
      pairwise_jsStableSort _ _
        (fun x _ y _ => by
          unfold dateDescLe
          cases jsDateGetTime x.date <;> cases jsDateGetTime y.date
          · simp
          · simp
          · simp
          · simp only [decide_eq_true_eq]
            omega)
        (fun x hx y hy z hz => by
          obtain ⟨tx, htx⟩ := Option.isSome_iff_exists.mp (hparse x hx)
          obtain ⟨ty, hty⟩ := Option.isSome_iff_exists.mp (hparse y hy)
          obtain ⟨tz, htz⟩ := Option.isSome_iff_exists.mp (hparse z hz)
          unfold dateDescLe
          rw [htx, hty, htz]
          simp only [decide_eq_true_eq]
          omega)
    have hperm : (jsSortByDateDesc dated).Perm dated := jsStableSort_perm _ _
    cases hsorted : jsSortByDateDesc dated with
    | nil =>
      exfalso
      apply hdne
      rw [hsorted] at hperm
      exact hperm.symm.eq_nil
    | cons w t =>
      rw [hsorted] at hperm hpw
      have hwmem : w ∈ dated := hperm.mem_iff.mp (List.mem_cons_self _ _)
      refine ⟨w, hwmem, ?_, ?_⟩
      · rw [hmain, ← hdated, hsorted]
        rfl
      · intro x hx tw tx htw htx
        have hxmem : x ∈ w :: t := hperm.mem_iff.mpr hx
        rcases List.mem_cons.mp hxmem with hxw | hxt
        · subst hxw
          rw [htw] at htx
          injection htx with h
          omega
        · have hle := (List.pairwise_cons.mp hpw).1 x hxt
          unfold dateDescLe at hle
          rw [htw, htx] at hle
          simpa using hle
  · decide

/-- Witness for the general part of C3 at scenario 2. -/
theorem claim_C3_witness :
    ∃ w ∈ [TagItem.mk "release-1" "2024-01-01",
           TagItem.mk "release-2" "2024-01-03",
           TagItem.mk "release-3" "2024-01-02"],
      resolveLatestTag rtestNone
        [⟨"release-1", "2024-01-01"⟩, ⟨"release-2", "2024-01-03"⟩,
         ⟨"release-3", "2024-01-02"⟩] none = .ok w.name ∧
      ∀ x ∈ [TagItem.mk "release-1" "2024-01-01",
             TagItem.mk "release-2" "2024-01-03",
             TagItem.mk "release-3" "2024-01-02"],
        ∀ tw tx : Int, jsDateGetTime w.date = some tw →
          jsDateGetTime x.date = some tx → tx ≤ tw :=
  claim_C3_date_selection.1 rtestNone
    [⟨"release-1", "2024-01-01"⟩, ⟨"release-2", "2024-01-03"⟩,
     ⟨"release-3", "2024-01-02"⟩]
    [⟨"release-1", "2024-01-01"⟩, ⟨"release-2", "2024-01-03"⟩,
     ⟨"release-3", "2024-01-02"⟩]
    (by decide) (by decide) (by decide) (by decide) (by decide)

/-- C4: when the (possibly format-filtered) working set has no valid semver
name and no entry with a non-empty date, `resolveLatestTag` returns the
lexicographically maximal name of the working set (JS string order);
in particular names `["latest", "edge", "dev"]` with format list
`["*.*.*", "*.*", "*"]` — where only the third pattern selects anything —
resolve to `"latest"`. -/
theorem claim_C4_alphabetical_fallback :
    (∀ (rtest : String → String → Bool) (allItems F : List TagItem)
        (formatPatterns : Option (List String)),
      allItems ≠ [] →
      filterItemsStage rtest allItems formatPatterns = .ok F →
      F ≠ [] →
      (∀ it ∈ F, isSemver it.name = false) →
      (∀ it ∈ F, it.date = "") →
      ∃ w ∈ F.map TagItem.name,
        resolveLatestTag rtest allItems formatPatterns = .ok w ∧
        ∀ x ∈ F.map TagItem.name, jsStrCompare x w ≤ 0) ∧
    resolveLatestTag rtestNone
      [⟨"latest", ""⟩, ⟨"edge", ""⟩, ⟨"dev", ""⟩]
      (some ["*.*.*", "*.*", "*"]) = .ok "latest" := by
  constructor
  · intro rtest allItems F formatPatterns hne hstage hFne hnosem hnodate
    have hsem : (F.filter fun it => isSemver it.name) = [] :=
      List.filter_eq_nil_iff.mpr fun it hit => by simp [hnosem it hit]
    have hdat : (F.filter fun it => it.date ≠ "") = [] :=
      List.filter_eq_nil_iff.mpr fun it hit => by simp [hnodate it hit]
    have hmain : resolveLatestTag rtest allItems formatPatterns =
        .ok ((jsSortStrings (F.map TagItem.name)).getLastD "") := by
      rw [resolveLatestTag_ok rtest allItems F formatPatterns hne hstage,
        resolveFromFiltered_alpha F hsem hdat]
    have hpw : (jsSortStrings (F.map TagItem.name)).Pairwise
        (fun a b => (decide (jsStrCompare a b ≤ 0)) = true) :=
      pairwise_jsStableSort _ _
        (fun x _ y _ => by
          simp only [decide_eq_true_eq]
          exact jsStrCompare_total x y)
        (fun x _ y _ z _ => by
          simp only [decide_eq_true_eq]
          exact jsStrCompare_trans x y z)
    have hperm : (jsSortStrings (F.map TagItem.name)).Perm
        (F.map TagItem.name) := jsStableSort_perm _ _
    have hsne : jsSortStrings (F.map TagItem.name) ≠ [] := by
      intro h0
      rw [h0] at hperm
      exact (by simpa [List.map_eq_nil_iff] using hperm.symm.eq_nil : F = [])
        |> hFne
    refine ⟨(jsSortStrings (F.map TagItem.name)).getLastD "", ?_, hmain, ?_⟩
    · exact hperm.mem_iff.mp (getLastD_mem_of_ne_nil _ "" hsne)
    · intro x hx
      have hxmem : x ∈ jsSortStrings (F.map TagItem.name) :=
        hperm.mem_iff.mpr hx
      rcases pairwise_getLastD _ "" hpw x hxmem with hxl | hxl
      · rw [hxl, jsStrCompare_self]
      · simpa using hxl
  · decide

/-- Witness for the general part of C4 at scenario 4
(after the format filter has selected all three names via `"*"`). -/
theorem claim_C4_witness :
    ∃ w ∈ ["latest", "edge", "dev"],
      resolveLatestTag rtestNone
        [⟨"latest", ""⟩, ⟨"edge", ""⟩, ⟨"dev", ""⟩]
        (some ["*.*.*", "*.*", "*"]) = .ok w ∧
      ∀ x ∈ ["latest", "edge", "dev"], jsStrCompare x w ≤ 0 :=
  claim_C4_alphabetical_fallback.1 rtestNone
    [⟨"latest", ""⟩, ⟨"edge", ""⟩, ⟨"dev", ""⟩]
    [⟨"latest", ""⟩, ⟨"edge", ""⟩, ⟨"dev", ""⟩]
    (some ["*.*.*", "*.*", "*"])
    (by decide) (by decide) (by decide) (by decide) (by decide)

/-- C6: for source names `["3.23-bae0df8a-ls3", "3.22-c210e9fe-ls18",
"edge-e9613ab3-ls213"]` and the single format pattern `"X.X"`, the filter
keeps the first two names (whose full match fails but whose numeric prefixes
`"3.23"` and `"3.22"` match) and drops the edge tag (empty numeric prefix),
and `resolveLatestTag` returns `"3.23-bae0df8a-ls3"` — independently of the
regex engine, which is never consulted. -/
theorem claim_C6_scenario3 :
    ∀ rtest : String → String → Bool,
      matchToks (simpleToks "X.X") "3.23-bae0df8a-ls3".data = false ∧
      extractNumericPrefix "3.23-bae0df8a-ls3" = "3.23" ∧
      extractNumericPrefix "3.22-c210e9fe-ls18" = "3.22" ∧
      extractNumericPrefix "edge-e9613ab3-ls213" = "" ∧
      matchTagFormat rtest "3.23-bae0df8a-ls3" "X.X" = true ∧
      matchTagFormat rtest "3.22-c210e9fe-ls18" "X.X" = true ∧
      matchTagFormat rtest "edge-e9613ab3-ls213" "X.X" = false ∧
      filterTagsByFormat rtest
        ["3.23-bae0df8a-ls3", "3.22-c210e9fe-ls18", "edge-e9613ab3-ls213"]
        "X.X" = ["3.23-bae0df8a-ls3", "3.22-c210e9fe-ls18"] ∧
      resolveLatestTag rtest
        [⟨"3.23-bae0df8a-ls3", ""⟩, ⟨"3.22-c210e9fe-ls18", ""⟩,
         ⟨"edge-e9613ab3-ls213", ""⟩] (some ["X.X"]) =
        .ok "3.23-bae0df8a-ls3" := by
  intro rtest
  exact ⟨rfl, rfl, rfl, rfl, rfl, rfl, rfl, rfl, rfl⟩

/-- C7: for every pair of strings where at least one fails to parse as a
semantic version, `compareSemver` returns 0; and for all valid semver
strings `a`, `b`, `compareSemver a b = -compareSemver b a` and
`compareSemver a a = 0`. -/
theorem claim_C7_compareSemver_algebra :
    (∀ x y : String, (isSemver x = false ∨ isSemver y = false) →
      compareSemver x y = 0) ∧
    (∀ a b : String, isSemver a = true → isSemver b = true →
      compareSemver a b = -compareSemver b a) ∧
    (∀ a : String, isSemver a = true → compareSemver a a = 0) := by
  refine ⟨?_, fun a b _ _ => compareSemver_antisymm a b,
    fun a _ => compareSemver_self a⟩
  intro x y h
  rcases h with h | h
  · have hx : parseSemver x = none := (isSemver_eq_false_iff x).mp h
    cases hy : parseSemver y <;> simp [compareSemver, hx, hy]
  · have hy : parseSemver y = none := (isSemver_eq_false_iff y).mp h
    cases hx : parseSemver x <;> simp [compareSemver, hx, hy]

/-- Witness for C7 at concrete inputs. -/
theorem claim_C7_witness :
    compareSemver "not-semver" "1.2.3" = 0 ∧
    compareSemver "1.2.3" "4.5.6" = -compareSemver "4.5.6" "1.2.3" ∧
    compareSemver "7.8.9" "7.8.9" = 0 :=
  ⟨claim_C7_compareSemver_algebra.1 "not-semver" "1.2.3" (Or.inl (by decide)),
    claim_C7_compareSemver_algebra.2.1 "1.2.3" "4.5.6" (by decide) (by decide),
    claim_C7_compareSemver_algebra.2.2 "7.8.9" (by decide)⟩

/-- C8: at equal major, minor and patch, two versions that both carry a
prerelease are ordered by plain lexicographic (JS string) comparison of the
prerelease strings; a version with no prerelease compares greater than one
with a prerelease; two versions with no prerelease compare equal; and build
metadata never affects the result (equal prereleases give 0 whatever the
build parts are). -/
theorem claim_C8_prerelease_tiebreak :
    ∀ (a b : String) (p q : SemverParts),
      parseSemver a = some p → parseSemver b = some q →
      p.major = q.major → p.minor = q.minor → p.patch = q.patch →
      (∀ s t : String, p.prerelease = some s → q.prerelease = some t →
          compareSemver a b = jsStrCompare s t) ∧
      (∀ t : String, p.prerelease = none → q.prerelease = some t →
          compareSemver a b = 1) ∧
      (∀ s : String, p.prerelease = some s → q.prerelease = none →
          compareSemver a b = -1) ∧
      (p.prerelease = q.prerelease → compareSemver a b = 0) := by
  intro a b p q hp hq h1 h2 h3
  have core : compareSemver a b =
      (match p.prerelease, q.prerelease with
        | some p1, some p2 => jsStrCompare p1 p2
        | some _, none => -1
        | none, some _ => 1
        | none, none => 0) := by
    unfold compareSemver
    rw [hp, hq]
    have a1 : ¬ p.major ≠ q.major := by omega
    have b1 : ¬ p.minor ≠ q.minor := by omega
    have c1 : ¬ p.patch ≠ q.patch := by omega
    simp only [if_neg a1, if_neg b1, if_neg c1]
  refine ⟨?_, ?_, ?_, ?_⟩
  · intro s t hs ht
    rw [core, hs, ht]
  · intro t hs ht
    rw [core, hs, ht]
  · intro s hs ht
    rw [core, hs, ht]
  · intro hst
    rw [core, hst]
    cases q.prerelease with
    | none => rfl
    | some t => exact jsStrCompare_self t

/-- Witness for C8 at concrete inputs. -/
theorem claim_C8_witness :
    compareSemver "1.2.3-alpha" "1.2.3-beta" = jsStrCompare "alpha" "beta" ∧
    compareSemver "1.2.3" "1.2.3-rc" = 1 ∧
    compareSemver "1.2.3+a1" "1.2.3+b2" = 0 := by
  refine ⟨?_, ?_, ?_⟩
  · exact (claim_C8_prerelease_tiebreak "1.2.3-alpha" "1.2.3-beta"
      ⟨1, 2, 3, some "alpha", none⟩ ⟨1, 2, 3, some "beta", none⟩
      (by decide) (by decide) rfl rfl rfl).1 "alpha" "beta" rfl rfl
  · exact (claim_C8_prerelease_tiebreak "1.2.3" "1.2.3-rc"
      ⟨1, 2, 3, none, none⟩ ⟨1, 2, 3, some "rc", none⟩
      (by decide) (by decide) rfl rfl rfl).2.1 "rc" rfl rfl
  · exact (claim_C8_prerelease_tiebreak "1.2.3+a1" "1.2.3+b2"
      ⟨1, 2, 3, none, some "a1"⟩ ⟨1, 2, 3, none, some "b2"⟩
      (by decide) (by decide) rfl rfl rfl).2.2.2 rfl

/-- C10: `convertSimplePatternToRegex` does not escape the dots of a simple
pattern (the embedded token list maps a pattern dot to the any-character
token), so a tag name containing no dot at all can be accepted against a
simple pattern: `matchTagFormat "1x2" "X.X"` returns true, whatever the
regex engine does. -/
theorem claim_C10_unescaped_simple_dot :
    ∀ rtest : String → String → Bool,
      simpleToks "X.X" = [.digits, .anyc, .digits] ∧
      matchTagFormat rtest "1x2" "X.X" = true ∧
      "1x2".data.all (fun c => c ≠ '.') = true := by
  intro rtest
  exact ⟨rfl, rfl, by decide⟩

/-- C5 counterexample: the pattern `"1.2"` is classified as a literal (not
simple, not wildcard, not regex), the numeric prefix of `"1.2-foo"` equals
the pattern, and yet `matchTagFormat "1.2-foo" "1.2"` is false — so literal
patterns get no prefix-match fallback, contradicting the claim. -/
theorem claim_C5_counterexample :
    isSimplePattern "1.2" = false ∧ isWildcardPattern "1.2" = false ∧
    isRegexPattern "1.2" = false ∧
    extractNumericPrefix "1.2-foo" = "1.2" ∧
    matchTagFormat rtestNone "1.2-foo" "1.2" = false := by
  refine ⟨by decide, by decide, by decide, by decide, rfl⟩

/-- C5 amended: for a non-empty tag and non-empty format, a format classified
as simple tries the full match first and then the numeric-prefix match; a
format classified as regex does the same through the regex engine; but a
format classified as literal (such as `"1.2"`) is matched by exact string
equality only, with no prefix fallback. -/
theorem claim_C5_match_order :
    ∀ (rtest : String → String → Bool) (t f : String), t ≠ "" → f ≠ "" →
      (isSimplePattern f = true →
        matchTagFormat rtest t f =
          (matchToks (simpleToks f) t.data ||
            (extractNumericPrefix t ≠ "" &&
              matchToks (simpleToks f) (extractNumericPrefix t).data))) ∧
      (isSimplePattern f = false → isWildcardPattern f = false →
        isRegexPattern f = true →
        matchTagFormat rtest t f =
          (rtest (anchorRegex (stripSlashes f)) t ||
            (extractNumericPrefix t ≠ "" &&
              rtest (anchorRegex (stripSlashes f)) (extractNumericPrefix t)))) ∧
      (isSimplePattern f = false → isWildcardPattern f = false →
        isRegexPattern f = false →
        matchTagFormat rtest t f = decide (t = f)) := by
  intro rtest t f ht hf
  refine ⟨?_, ?_, ?_⟩
  · intro hs
    by_cases hm : matchToks (simpleToks f) t.data = true
    · simp [matchTagFormat, hf, ht, hs, hm]
    · simp only [Bool.not_eq_true] at hm
      simp [matchTagFormat, hf, ht, hs, hm]
  · intro hs hw hr
    by_cases hm : rtest (anchorRegex (stripSlashes f)) t = true
    · simp [matchTagFormat, hf, ht, hs, hw, hr, hm]
    · simp only [Bool.not_eq_true] at hm
      simp [matchTagFormat, hf, ht, hs, hw, hr, hm]
  · intro hs hw hr
    simp [matchTagFormat, hf, ht, hs, hw, hr]

/-- Witness for the amended C5 at concrete inputs. -/
theorem claim_C5_witness :
    matchTagFormat rtestNone "3.23-foo" "X.X" =
      (matchToks (simpleToks "X.X") "3.23-foo".data ||
        (extractNumericPrefix "3.23-foo" ≠ "" &&
          matchToks (simpleToks "X.X") (extractNumericPrefix "3.23-foo").data)) ∧
    matchTagFormat rtestNone "1.2-foo" "1.2" = decide ("1.2-foo" = "1.2") :=
  ⟨(claim_C5_match_order rtestNone "3.23-foo" "X.X" (by decide)
      (by decide)).1 (by decide),
    (claim_C5_match_order rtestNone "1.2-foo" "1.2" (by decide)
      (by decide)).2.2 (by decide) (by decide) (by decide)⟩

/-- C9: `parseTagFormat` yields "no filtering" for undefined, empty or
whitespace-only input; an input whose trimmed form starts with `[` and ends
with `]` goes through `JSON.parse` (so element contents are never split on
commas), failing when the JSON is malformed or not an array, and otherwise
trimming the elements, dropping the empty ones and failing when none are
left; any other input containing a comma is split on commas with empty parts
dropped; `parseTagFormat "*.*.*,*.*" = ["*.*.*", "*.*"]`; and
`parseTagFormat "[]"` fails. -/
theorem claim_C9_parseTagFormat :
    (parseTagFormat none = .ok none) ∧
    (∀ s : String, jsTrim s = "" → parseTagFormat (some s) = .ok none) ∧
    (∀ s : String, jsTrim s ≠ "" →
      (headIs '[' (jsTrim s).data && lastIs ']' (jsTrim s).data) = true →
      (jsonParse (jsTrim s) = none →
        parseTagFormat (some s) =
          .error "Invalid JSON array format for tag_format") ∧
      (∀ items : List JsonValue, jsonParse (jsTrim s) = some (.arr items) →
        parseTagFormat (some s) =
          (let patterns := (items.map jsItemToPattern).filter fun p => p ≠ ""
           if patterns.isEmpty then
             .error "JSON array must contain at least one non-empty pattern"
           else .ok (some patterns))) ∧
      (∀ v : JsonValue, jsonParse (jsTrim s) = some v →
        (∀ xs : List JsonValue, v ≠ .arr xs) →
        parseTagFormat (some s) = .error "JSON input must be an array")) ∧
    (∀ s : String, jsTrim s ≠ "" →
      (headIs '[' (jsTrim s).data && lastIs ']' (jsTrim s).data) = false →
      (jsTrim s).data.contains ',' = true →
      parseTagFormat (some s) =
        (let patterns :=
          ((jsSplitChar ',' (jsTrim s).data).map jsTrim).filter fun p => p ≠ ""
         if patterns.isEmpty then
           .error "Comma-separated tag_format must contain at least one non-empty pattern"
         else .ok (some patterns))) ∧
    (parseTagFormat (some "*.*.*,*.*") = .ok (some ["*.*.*", "*.*"])) ∧
    (parseTagFormat (some "[\"a\",\"b\"]") = .ok (some ["a", "b"])) ∧
    (parseTagFormat (some "[\"a,b\"]") = .ok (some ["a,b"])) ∧
    (parseTagFormat (some "[]") =
      .error "JSON array must contain at least one non-empty pattern") := by
  refine ⟨rfl, ?_, ?_, ?_, by decide, by decide, by decide, by decide⟩
  · intro s hs
    simp [parseTagFormat, hs]
  · intro s hs hbr
    refine ⟨?_, ?_, ?_⟩
    · intro hj
      simp [parseTagFormat, hs, hbr, hj]
    · intro items hj
      simp [parseTagFormat, hs, hbr, hj]
    · intro v hj hv
      cases v with
      | arr xs => exact absurd rfl (hv xs)
      | null => simp [parseTagFormat, hs, hbr, hj]
      | bool b => simp [parseTagFormat, hs, hbr, hj]
      | num lex => simp [parseTagFormat, hs, hbr, hj]
      | str str => simp [parseTagFormat, hs, hbr, hj]
      | obj fields => simp [parseTagFormat, hs, hbr, hj]
  · intro s hs hbr hc
    have hc' : ',' ∈ (jsTrim s).data := by simpa using hc
    simp [parseTagFormat, hs, hbr, hc, hc']

/-- Witness for C9 at concrete inputs. -/
theorem claim_C9_witness :
    parseTagFormat (some "   ") = .ok none ∧
    parseTagFormat (some " [\"a\", \"b\"] ") = .ok (some ["a", "b"]) := by
  constructor
  · exact claim_C9_parseTagFormat.2.1 "   " (by decide)
  · have h := (claim_C9_parseTagFormat.2.2.1 " [\"a\", \"b\"] "
      (by decide) (by decide)).2.1 [JsonValue.str "a", JsonValue.str "b"]
      (by rfl)
    exact h.trans (by decide)

end GitTagInfo
